import Mathlib

/-!
Verification development for the pyaerocom EBAS ingestion and station-merge
layer.  The definitions below are shallow embeddings of the corresponding
Python functions in `pyaerocom/io/read_ebas.py` and `pyaerocom/helpers.py`:

* `resolveWvl`            — the wavelength-disambiguation loop of
                            `ReadEbas.read_file` (read_ebas.py, lines 508-540);
* `get_var_cols`          — `ReadEbas._get_var_cols` (lines 301-362);
* `find_best_data_column` — `ReadEbas._find_best_data_column` (lines 364-451);
* `extractOutcome`        — the per-variable data-extraction loop of
                            `ReadEbas.read_file` (lines 606-638);
* `readBatch`             — the error-isolation loop of `ReadEbas.read`
                            (lines 715-729);
* `readRun` / `trimStore` — the store-growth bookkeeping of `ReadEbas.read`
                            (lines 758-763 and 806-810);
* `runVarRegistry`        — the `var_idx` assignment logic of `ReadEbas.read`
                            (lines 712-714 and 777-804);
* `check3d` / `mergeFlatOrder` / `npInterpPoint`
                          — the validation, ordering and vertical-interpolation
                            logic of `merge_station_data` (helpers.py,
                            lines 130-268).

Missing numeric samples (numpy NaN) are modelled as `none : Option ℚ`;
real samples as `some q`.  Machine floats are modelled by exact rationals.
-/

/-- One entry of `EbasNasaAmesFile.var_defs`: a column definition with its
attribute map.  Only the attributes inspected by the embedded code are kept
(`name`, `matrix`, `statistics`, `wavelength`, `location`); absence of an
attribute in the Python dict is `none` / `false`. -/
structure EbasColDef where
  name : String := ""
  matrix : Option String := none
  statistics : Option String := none
  wavelength : Option ℚ := none
  location : Bool := false
deriving DecidableEq

instance : Inhabited EbasColDef := ⟨{}⟩

/-- The parts of a parsed NASA-Ames file (`EbasNasaAmesFile`) that the embedded
code reads: the column definitions, the file-level default matrix, the optional
file-level `statistics` entry of `file.meta`, the number of data rows, and the
numeric data stored column-wise (`dataCols.getD c []` is `file.data[:, c]`). -/
structure NasaAmesFile where
  var_defs : List EbasColDef := []
  matrix : String := ""
  meta_statistics : Option String := none
  nrows : Nat := 0
  dataCols : List (List (Option ℚ)) := []
deriving DecidableEq

/-- `ReadEbas.WAVELENGTH_TOL_NM` (read_ebas.py, line 84). -/
def WAVELENGTH_TOL_NM : ℚ := 50

/-- Errors that the wavelength loop of `read_file` can raise. -/
inductive WvlErr where
  | varDefErr   -- VariableDefinitionError (line 515)
  | notImplErr  -- NotImplementedError for columns with a location attribute (line 537)
deriving DecidableEq

instance {ε α : Type} [DecidableEq ε] [DecidableEq α] : DecidableEq (Except ε α) :=
  fun x y =>
    match x, y with
    | .ok a, .ok b =>
      if h : a = b then isTrue (by rw [h]) else
        isFalse (fun hc => h (Except.ok.inj hc))
    | .error a, .error b =>
      if h : a = b then isTrue (by rw [h]) else
        isFalse (fun hc => h (Except.error.inj hc))
    | .ok _, .error _ => isFalse (fun hc => Except.noConfusion hc)
    | .error _, .ok _ => isFalse (fun hc => Except.noConfusion hc)

/-- Loop body of the wavelength disambiguation in `ReadEbas.read_file`
(lines 510-540), with the running state `(min_diff_wvl, matches)` made
explicit (`ms` is the Python local `matches`).  `target` is
`var_info.wavelength_nm`; each candidate column index is looked up in `defs`
(= `file.var_defs`). -/
def resolveWvlAux (target : Option ℚ) (defs : List EbasColDef) :
    List Nat → ℚ → List Nat → Except WvlErr (ℚ × List Nat)
  | [], min_diff_wvl, ms => .ok (min_diff_wvl, ms)
  | colnum :: rest, min_diff_wvl, ms =>
    let colinfo := defs.getD colnum default
    match colinfo.wavelength with
    | some wvl_col =>
      match target with
      | none => .error .varDefErr
      | some wvl =>
        if wvl - WAVELENGTH_TOL_NM ≤ wvl_col ∧ wvl_col ≤ wvl + WAVELENGTH_TOL_NM then
          let wvl_diff := wvl_col - wvl
          if |wvl_diff| < |min_diff_wvl| then
            resolveWvlAux target defs rest wvl_diff [colnum]
          else if wvl_diff = min_diff_wvl then
            resolveWvlAux target defs rest min_diff_wvl (ms ++ [colnum])
          else
            resolveWvlAux target defs rest min_diff_wvl ms
        else
          resolveWvlAux target defs rest min_diff_wvl ms
    | none =>
      if colinfo.location then .error .notImplErr
      else resolveWvlAux target defs rest min_diff_wvl (ms ++ [colnum])
termination_by structural l => l

/-- The wavelength disambiguation step of `ReadEbas.read_file` for one
variable: the loop of lines 508-540 started with `min_diff_wvl = 1e6` and
`matches = []`, returning the final `matches` list. -/
def resolveWvl (target : Option ℚ) (cols : List Nat) (defs : List EbasColDef) :
    Except WvlErr (List Nat) :=
  (resolveWvlAux target defs cols 1000000 []).map (fun p => p.2)

/-- Column definitions of the C1 scenario: candidate columns at 500, 520 and
600 nm (in file order). -/
def wvlExDefs : List EbasColDef :=
  [{ name := "sc550", wavelength := some 500 },
   { name := "sc550", wavelength := some 520 },
   { name := "sc550", wavelength := some 600 }]

/-- `ReadEbas.PREFER_STATISTICS` (read_ebas.py, lines 73-74). -/
def PREFER_STATISTICS : List String := ["arithmetic mean", "median"]

/-- `ReadEbas.IGNORE_STATISTICS` (read_ebas.py, lines 78-79). -/
def IGNORE_STATISTICS : List String := ["percentile:15.87", "percentile:84.13"]

/-- The fields of `EbasVarInfo` read by the embedded code: the Aerocom
variable name, accepted EBAS component names, and the optional matrix and
statistics preference lists from `ebas_config.ini`. -/
structure EbasVarInfo where
  var_name : String := ""
  component : List String := []
  matrix : Option (List String) := none
  statistics : Option (List String) := none
deriving DecidableEq

/-- Candidate test of `ReadEbas._get_var_cols` for one column (read_ebas.py,
lines 338-358): the component name must match, the effective matrix (column
attribute, else file default) must be in the matrix preference list when one
is configured, the column's statistics attribute — when present — must not be
globally ignored and must be in the statistics preference list when one is
configured. -/
def colCandidate (info : EbasVarInfo) (file : NasaAmesFile) (ci : EbasColDef) : Bool :=
  ci.name ∈ info.component &&
  (match info.matrix with
   | none => true
   | some pm => (ci.matrix.getD file.matrix) ∈ pm) &&
  (match ci.statistics with
   | none => true
   | some st =>
     !(st ∈ IGNORE_STATISTICS) &&
     (match info.statistics with
      | none => true
      | some ps => st ∈ ps))

/-- Index-collecting loop of `ReadEbas._get_var_cols`: `n` is the running
`colnum` of the `enumerate` loop. -/
def getVarColsAux (info : EbasVarInfo) (file : NasaAmesFile) :
    Nat → List EbasColDef → List Nat
  | _, [] => []
  | n, ci :: rest =>
    if colCandidate info file ci then n :: getVarColsAux info file (n + 1) rest
    else getVarColsAux info file (n + 1) rest

/-- `ReadEbas._get_var_cols` (read_ebas.py, lines 301-362): all column indices
matching the variable specification; the empty result is the `NotInFileError`
case of line 359. -/
def get_var_cols (info : EbasVarInfo) (file : NasaAmesFile) : Except Unit (List Nat) :=
  match getVarColsAux info file 0 file.var_defs with
  | [] => .error ()
  | l => .ok l

/-- Errors that `ReadEbas._find_best_data_column` can raise. -/
inductive FindColErr where
  | ioError      -- IOError: column matrix attributes but no preferred matrix (line 384)
  | ebasFileErr  -- EbasFileError: statistics inferable neither from column nor file meta (line 421)
  | valueErr     -- ValueError: developer guard for an empty result (line 437)
deriving DecidableEq

/-- `preferred.index(x)` for `x ∈ preferred` (Python list `.index`). -/
def prefIndex : List String → String → Nat
  | [], _ => 10000
  | p :: ps, x => if p = x then 0 else prefIndex ps x + 1

/-- Matrix phase of `ReadEbas._find_best_data_column` (read_ebas.py, lines
372-404): scan the candidate columns, keeping the running best matrix
preference index (`9999` is the sentinel `idx_best_matrix_found`) and the
columns achieving it.  Columns without a matrix attribute are skipped; a
column with a matrix attribute while no preferred matrix is configured raises
`IOError`. -/
def matrixPhase (pm : Option (List String)) (defs : List EbasColDef) :
    List Nat → Nat → List Nat → Except FindColErr (Nat × List Nat)
  | [], best, ms => .ok (best, ms)
  | colnum :: rest, best, ms =>
    match (defs.getD colnum default).matrix with
    | none => matrixPhase pm defs rest best ms
    | some m =>
      match pm with
      | none => .error .ioError
      | some preferred_matrix =>
        if m ∈ preferred_matrix then
          let i := prefIndex preferred_matrix m
          if i < best then matrixPhase pm defs rest i [colnum]
          else if i = best then matrixPhase pm defs rest best (ms ++ [colnum])
          else matrixPhase pm defs rest best ms
        else matrixPhase pm defs rest best ms
termination_by structural l => l

/-- Statistics phase of `ReadEbas._find_best_data_column` (read_ebas.py,
lines 409-433): like the matrix phase, over the statistics preference list;
the statistics of a column fall back to the file-level `meta['statistics']`,
and `EbasFileError` is raised when neither exists. -/
def statsPhase (preferred_statistics : List String) (meta_statistics : Option String)
    (defs : List EbasColDef) :
    List Nat → Nat → List Nat → Except FindColErr (Nat × List Nat)
  | [], best, ms => .ok (best, ms)
  | colnum :: rest, best, ms =>
    match (defs.getD colnum default).statistics.orElse (fun _ => meta_statistics) with
    | none => .error .ebasFileErr
    | some stats =>
      if stats ∈ preferred_statistics then
        let i := prefIndex preferred_statistics stats
        if i < best then statsPhase preferred_statistics meta_statistics defs rest i [colnum]
        else if i = best then
          statsPhase preferred_statistics meta_statistics defs rest best (ms ++ [colnum])
        else statsPhase preferred_statistics meta_statistics defs rest best ms
      else statsPhase preferred_statistics meta_statistics defs rest best ms
termination_by structural l => l

/-- `np.isnan(file.data[:, colnum]).sum()`: the number of missing samples in
column `colnum`. -/
def nanCount (file : NasaAmesFile) (colnum : Nat) : Nat :=
  ((file.dataCols.getD colnum []).filter (fun v => v.isNone)).length

/-- `np.argmin` over a list of naturals: the index of the first occurrence of
the minimum (numpy returns the first of several minima). -/
def npArgmin : List Nat → Nat
  | [] => 0
  | [_] => 0
  | x :: y :: ys =>
    let j := npArgmin (y :: ys)
    if (y :: ys).getD j 0 < x then j + 1 else 0

/-- NaN-count tie-break of `ReadEbas._find_best_data_column` (read_ebas.py,
lines 441-444): `result_col = [result_col[np.argmin(num_invalid)]]`. -/
def nanTieBreak (file : NasaAmesFile) (result_col : List Nat) : List Nat :=
  [result_col.getD (npArgmin (result_col.map (nanCount file))) 0]

/-- `ReadEbas._find_best_data_column` (read_ebas.py, lines 364-451). -/
def find_best_data_column (info : EbasVarInfo) (file : NasaAmesFile) (cols : List Nat) :
    Except FindColErr (List Nat) :=
  match matrixPhase info.matrix file.var_defs cols 9999 [] with
  | .error e => .error e
  | .ok (idx_best_matrix_found, ms) =>
    let matrix_matches := if idx_best_matrix_found = 9999 then cols else ms
    if matrix_matches.length = 1 then .ok matrix_matches
    else
      let preferred_statistics :=
        match info.statistics with
        | some s => s
        | none => PREFER_STATISTICS
      match statsPhase preferred_statistics file.meta_statistics file.var_defs
          matrix_matches 9999 [] with
      | .error e => .error e
      | .ok (_, result_col) =>
        if result_col.length = 1 then .ok result_col
        else if result_col.length = 0 then .error .valueErr
        else .ok (nanTieBreak file result_col)

/-- Per-variable data-extraction decision of `ReadEbas.read_file` (read_ebas.py,
lines 606-615): a resolved variable is kept iff its data column is not entirely
NaN (`np.isnan(data).sum() == totnum` is the drop test, where `totnum =
file.data.shape[0] = nrows`). -/
def extractVars (file : NasaAmesFile) (var_cols : List (String × Nat)) : List String :=
  var_cols.filterMap
    (fun p => if nanCount file p.2 = file.nrows then none else some p.1)

/-- Outcome of the extraction loop plus the final guard of `ReadEbas.read_file`
(read_ebas.py, lines 636-638): `EbasFileError` iff `contains_vars` stays
empty. -/
def extractOutcome (file : NasaAmesFile) (var_cols : List (String × Nat)) :
    Except FindColErr (List String) :=
  match extractVars file var_cols with
  | [] => .error .ebasFileErr
  | l => .ok l

/-- Missing-value-propagating binary operation on samples (numpy arithmetic
with NaN). -/
def liftNaN2 (f : ℚ → ℚ → ℚ) : Option ℚ → Option ℚ → Option ℚ
  | some a, some b => some (f a b)
  | _, _ => none

/-- Shallow embedding of numpy's one-dimensional linear interpolation
`np.interp(x, xp, fp)` at a single point `x`, for a strictly increasing node
vector `xp`.  Numpy's default out-of-range behaviour is to clamp: points left
of `xp[0]` evaluate to `fp[0]` and points right of `xp[-1]` to `fp[-1]`;
interior points are linearly interpolated on their segment.  NaN samples
propagate.  Mismatched lengths (a numpy error) evaluate to `none`. -/
def npInterpPoint (x : ℚ) (xp : List ℚ) (fp : List (Option ℚ)) : Option ℚ :=
  match xp, fp with
  | [], _ => none
  | _ :: _, [] => none
  | [_], f0 :: _ => f0
  | _ :: _ :: _, [_] => none
  | x0 :: x1 :: xs, f0 :: f1 :: fs =>
    if x < x0 then f0
    else if x ≤ x1 then
      liftNaN2 (fun a b => a + (b - a) * (x - x0) / (x1 - x0)) f0 f1
    else npInterpPoint x (x1 :: xs) (f1 :: fs)
termination_by structural xp

/-- One iteration of the profile branch of `merge_station_data` (helpers.py,
lines 249-250): `_data[:, i] = np.interp(vert_grid, stat['altitude'],
stat[var_name].values)` — the column of the merged `[level × time]` array
contributed by one input station. -/
def mergeProfileCol (vert_grid : List ℚ) (altitude : List ℚ)
    (values : List (Option ℚ)) : List (Option ℚ) :=
  vert_grid.map (fun z => npInterpPoint z altitude values)

/-- Merge errors of `merge_station_data` relevant to the embedded checks. -/
inductive MergeErr where
  | dataCoverage  -- DataCoverageError (helpers.py, line 178)
  | mixedProfile  -- ValueError for mixed flat/profile inputs (line 204)
deriving DecidableEq

/-- The fields of a `StationData` input to `merge_station_data` that the
embedded logic reads: whether the target variable is present, whether its data
is altitude-resolved (`stat.check_if_3d(var_name)`), the value of the optional
preference attribute (`stat[pref_attr]`, modelled as an integer since it only
needs to be sortable), and the variable's sample values (`stat[var_name]`,
missing samples `none`). -/
structure MergeStat where
  hasVar : Bool := true
  is3d : Bool := false
  prefVal : Int := 0
  values : List (Option ℚ) := []
deriving DecidableEq

/-- The validation loop of `merge_station_data` (helpers.py, lines 176-206),
restricted to the checks that can fire for inputs already provided as series
(`pref_attr = None`, data convertible, ts_type available): the
`DataCoverageError` check of line 177 and the flat/profile check of lines
201-206, with the running flag `is_3d` explicit. -/
def check3dLoop : Bool → List MergeStat → Except MergeErr Bool
  | is_3d, [] => .ok is_3d
  | is_3d, stat :: rest =>
    if !stat.hasVar then .error .dataCoverage
    else if stat.is3d then check3dLoop true rest
    else if is_3d then .error .mixedProfile
    else check3dLoop is_3d rest

/-- The validation loop started with `is_3d = False` (helpers.py, line 175),
returning the final `is_3d` flag that selects the flat or profile branch. -/
def check3d (stats : List MergeStat) : Except MergeErr Bool :=
  check3dLoop false stats

/-- `len(s[var_name].dropna())`: the number of non-missing samples. -/
def dropnaLen (s : MergeStat) : Nat :=
  (s.values.filter (fun v => v.isSome)).length

/-- Sort key of `merge_station_data` (helpers.py, lines 211-214): the
preference attribute when `pref_attr` is supplied, else the non-missing sample
count. -/
def mergeKey (usePref : Bool) (s : MergeStat) : Int :=
  if usePref then s.prefVal else (dropnaLen s : Int)

/-- Input ordering of the flat branch of `merge_station_data` (helpers.py,
lines 211-217): `stats.sort(key=...)` — a stable ascending sort by the key,
embedded as `insertionSort` (stable, ascending, hence extensionally the sort
Python performs) — followed by `stats[::-1]` when `sort_by_largest` is set. -/
def mergeFlatOrder (usePref sort_by_largest : Bool) (stats : List MergeStat) :
    List MergeStat :=
  let sorted := List.insertionSort
    (fun a b => mergeKey usePref a ≤ mergeKey usePref b) stats
  if sort_by_largest then sorted.reverse else sorted

/-- Flat branch of `merge_station_data` (helpers.py, lines 210-223): order the
inputs, seed the running result with the first (`merged = stats.pop(0)`), fold
the remaining inputs with `merged.merge_other(stat, var_name, ...)`.
`merge_other` is a `StationData` method outside the verified sources and is
abstracted as a parameter; `none` is Python's `IndexError` on `pop(0)` for an
empty input list. -/
def merge_station_data_flat (merge_other : MergeStat → MergeStat → MergeStat)
    (usePref sort_by_largest : Bool) (stats : List MergeStat) : Option MergeStat :=
  match mergeFlatOrder usePref sort_by_largest stats with
  | [] => none
  | merged :: rest => some (rest.foldl merge_other merged)

/-- Store-growth state of `ReadEbas.read`: the logical write position `idx`,
the physical capacity `_ROWNO` of `data_obj._data`, and the number of times
the table has been trimmed. -/
structure StoreState where
  idx : Nat
  rowno : Nat
  trims : Nat
deriving DecidableEq

/-- Modelled from the spec: `UngriddedData.add_chunk` is code of this
repository that is not among the provided source files (only its caller
`ReadEbas.read` is).  Per the spec's store design ("`reserve`/`grow`: ensures
spare capacity, growing in fixed-size chunks, never shrinking mid-session")
and the caller's comment "if totnum < data_obj._CHUNKSIZE, then the latter is
used" (read_ebas.py, line 762), it extends the physical capacity by
`max(_CHUNKSIZE, totnum)`. -/
def add_chunk (chunksize : Nat) (s : StoreState) (totnum : Nat) : StoreState :=
  ⟨s.idx, s.rowno + max chunksize totnum, s.trims⟩

/-- Per-file store bookkeeping of `ReadEbas.read` (read_ebas.py, lines
721-729 and 751-806): a failed file (`none`) leaves the store unchanged; a
successful file appends `totnum = num_times * len(station_data.contains_vars)`
rows (`idx += totnum`, line 806), growing the table first when
`idx + totnum >= _ROWNO` (lines 761-763). -/
def readFileStep (chunksize : Nat) (s : StoreState) (f : Option Nat) : StoreState :=
  match f with
  | none => s
  | some totnum =>
    let s1 := if s.rowno ≤ s.idx + totnum then add_chunk chunksize s totnum else s
    ⟨s1.idx + totnum, s1.rowno, s1.trims⟩

/-- The file loop of `ReadEbas.read` as seen by the store: `files` records,
per input file, `none` for a failed read and `some totnum` for a successfully
read file appending `totnum` rows. -/
def readRun (chunksize rowno0 : Nat) (files : List (Option Nat)) : StoreState :=
  files.foldl (readFileStep chunksize) ⟨0, rowno0, 0⟩

/-- The final trim `data_obj._data = data_obj._data[:idx]` (read_ebas.py,
line 810): physical length becomes the logical length. -/
def trimStore (s : StoreState) : StoreState := ⟨s.idx, s.idx, s.trims + 1⟩

/-- `ReadEbas.read`, store view: process all files, then trim once. -/
def read_store (chunksize rowno0 : Nat) (files : List (Option Nat)) : StoreState :=
  trimStore (readRun chunksize rowno0 files)

/-- Variable registration of `ReadEbas.read` (read_ebas.py, lines 777-804)
for the variables of one file: a name already in `data_obj.var_idx` keeps its
index; a new name is assigned `var_count_glob + 1`, which equals the current
registry size.  The registry is the list of names in first-registration order;
a name's index is its position. -/
def registerVars (reg : List String) (fileVars : List String) : List String :=
  fileVars.foldl (fun r v => if v ∈ r then r else r ++ [v]) reg

/-- The `var_idx` registry built by the file loop of `ReadEbas.read`, starting
from the empty registry (`var_count_glob = -1`, line 714). -/
def runVarRegistry (files : List (List String)) : List String :=
  files.foldl registerVars []

/-- `data_obj.var_idx[v]`: the index assigned to variable name `v`, i.e. its
position in the registry (`none` when unregistered). -/
def varIdxOf : List String → String → Option Nat
  | [], _ => none
  | r :: rs, v => if r = v then some 0 else (varIdxOf rs v).map (· + 1)

/-- Exception types that `ReadEbas.read_file` can raise into the file loop of
`ReadEbas.read`. -/
inductive ReadFileErr where
  | notInFile           -- NotInFileError
  | ebasFile            -- EbasFileError
  | variableDefinition  -- VariableDefinitionError (read_file, line 515)
  | other               -- any other exception (IOError, ValueError, ...)
deriving DecidableEq

/-- The `except (NotInFileError, EbasFileError)` clause of `ReadEbas.read`
(read_ebas.py, line 724): exactly these two exception types are caught. -/
def caughtByRead : ReadFileErr → Bool
  | .notInFile => true
  | .ebasFile => true
  | _ => false

/-- The failure-isolation loop of `ReadEbas.read` (read_ebas.py, lines
715-729) with the accumulators explicit: each file yields either a station
payload or an exception; a caught exception appends the file to
`files_failed` and the loop continues; any other exception propagates and
aborts the batch. -/
def readLoop {α : Type} :
    List (String × Except ReadFileErr α) → List α → List String →
    Except ReadFileErr (List α × List String)
  | [], out, files_failed => .ok (out, files_failed)
  | (fname, res) :: rest, out, files_failed =>
    match res with
    | .ok station_data => readLoop rest (out ++ [station_data]) files_failed
    | .error e =>
      if caughtByRead e then readLoop rest out (files_failed ++ [fname])
      else .error e

/-- The batch read of `ReadEbas.read`, error-isolation view. -/
def readBatch {α : Type} (files : List (String × Except ReadFileErr α)) :
    Except ReadFileErr (List α × List String) :=
  readLoop files [] []

/-- Whether a file's outcome is caught by the loop: successes trivially, and
exceptions exactly when `caughtByRead` accepts their type. -/
def caughtOk {α : Type} (p : String × Except ReadFileErr α) : Bool :=
  match p.2 with
  | .error e => caughtByRead e
  | .ok _ => true

/-- The station payload of a successful file outcome. -/
def okPayload {α : Type} (p : String × Except ReadFileErr α) : Option α :=
  match p.2 with
  | .ok a => some a
  | .error _ => none

/-- The file name of a failed file outcome. -/
def failedName {α : Type} (p : String × Except ReadFileErr α) : Option String :=
  match p.2 with
  | .error _ => some p.1
  | .ok _ => none

/-- C1 counterexample: with candidate columns at 500, 520 and 600 nm (file
order), target 510 nm and tolerance 50 nm, the wavelength step of `read_file`
selects column 0 — the 500 nm column — and not the 520 nm column (index 1):
500 and 520 are equidistant from 510 and the code keeps the first-encountered
of the two (`abs(wvl_diff) < abs(min_diff_wvl)` is strict and the signed
`wvl_diff == min_diff_wvl` tie test fails for `+10` vs `-10`).  This refutes
the claim that the 520 nm column is selected. -/
theorem c1_counterexample :
    resolveWvl (some 510) [0, 1, 2] wvlExDefs = .ok [0] ∧
    (wvlExDefs.getD 0 default).wavelength = some 500 ∧
    (wvlExDefs.getD 1 default).wavelength = some 520 ∧
    resolveWvl (some 510) [0, 1, 2] wvlExDefs ≠ .ok [1] := by
  refine ⟨?_, rfl, rfl, ?_⟩ <;>
    norm_num [resolveWvl, resolveWvlAux, wvlExDefs, WAVELENGTH_TOL_NM, Except.map]

/-- C1 (amended): for a file containing candidate columns at wavelengths
500 nm, 520 nm and 600 nm (in that order), with target wavelength 510 nm and
tolerance 50 nm, the wavelength disambiguation step of `read_file` selects the
500 nm column — the first-encountered among the candidates at minimal absolute
distance to the target within [460, 560] — and never the 600 nm column. -/
theorem c1_theorem (c0 c1 c2 : EbasColDef)
    (h0 : c0.wavelength = some 500) (h1 : c1.wavelength = some 520)
    (h2 : c2.wavelength = some 600) :
    resolveWvl (some 510) [0, 1, 2] [c0, c1, c2] = .ok [0] ∧
    ∀ ms, resolveWvl (some 510) [0, 1, 2] [c0, c1, c2] = .ok ms → 2 ∉ ms := by
  have hres : resolveWvl (some 510) [0, 1, 2] [c0, c1, c2] = .ok [0] := by
    norm_num [resolveWvl, resolveWvlAux, h0, h1, h2, WAVELENGTH_TOL_NM, Except.map]
  refine ⟨hres, fun ms hms => ?_⟩
  rw [hres] at hms
  cases hms
  decide

/-- C1 witness: `c1_theorem` applied to the concrete columns of `wvlExDefs`. -/
theorem c1_witness :
    resolveWvl (some 510) [0, 1, 2] wvlExDefs = .ok [0] ∧
    ∀ ms, resolveWvl (some 510) [0, 1, 2] wvlExDefs = .ok ms → 2 ∉ ms :=
  c1_theorem _ _ _ rfl rfl rfl

/-- Helper for C10: if the Aerocom variable has no wavelength
(`var_info.wavelength_nm is None`), no candidate column carries a `location`
attribute, and some candidate column carries a `wavelength` attribute, the
wavelength loop raises `VariableDefinitionError` from any starting state. -/
theorem resolveWvlAux_varDef (defs : List EbasColDef) :
    ∀ (cols : List Nat) (d : ℚ) (ms : List Nat),
      (∀ c ∈ cols, (defs.getD c default).location = false) →
      (∃ c ∈ cols, ((defs.getD c default).wavelength).isSome) →
      resolveWvlAux none defs cols d ms = .error .varDefErr := by
  intro cols
  induction cols with
  | nil => intro d ms _ hex; simp at hex
  | cons c rest ih =>
    intro d ms hloc hex
    rcases hw : (defs.getD c default).wavelength with _ | wvl
    · have hlc : (defs.getD c default).location = false := hloc c (by simp)
      have hrest : ∃ c' ∈ rest, ((defs.getD c' default).wavelength).isSome := by
        rcases hex with ⟨c', hc', hs⟩
        rcases List.mem_cons.1 hc' with hceq | hmem
        · subst hceq; rw [hw] at hs; simp at hs
        · exact ⟨c', hmem, hs⟩
      simp only [resolveWvlAux, hw, hlc, if_neg Bool.false_ne_true]
      exact ih d (ms ++ [c]) (fun x hx => hloc x (List.mem_cons_of_mem _ hx)) hrest
    · simp only [resolveWvlAux, hw]

/-- C10: in `read_file`, if any candidate column for a requested variable
carries a wavelength attribute while the requested Aerocom variable definition
has no wavelength (`wavelength_nm is None`), the wavelength step raises
`VariableDefinitionError` for the whole file (read_ebas.py, lines 510-517)
instead of letting that candidate pass through unfiltered.  (The hypothesis
that no candidate carries a `location` attribute rules out the earlier
`NotImplementedError` branch of line 536.) -/
theorem c10_theorem (defs : List EbasColDef) (cols : List Nat)
    (hloc : ∀ c ∈ cols, (defs.getD c default).location = false)
    (hwvl : ∃ c ∈ cols, ((defs.getD c default).wavelength).isSome) :
    resolveWvl none cols defs = .error .varDefErr := by
  unfold resolveWvl
  rw [resolveWvlAux_varDef defs cols 1000000 [] hloc hwvl]
  rfl

/-- C10 witness: `c10_theorem` at the concrete file `wvlExDefs` with the
single candidate column 0 (which has a wavelength attribute). -/
theorem c10_witness : resolveWvl none [0] wvlExDefs = .error .varDefErr :=
  c10_theorem wvlExDefs [0] (by decide) ⟨0, by decide, by decide⟩

/-- C2 counterexample: for the input with altitude axis `[5, 15] → [4, 5]` on
canonical grid `[0, 5, 10, 15, 20]`, the canonical grid point `0` lies outside
the input's native altitude range (`0 < 5`), yet the profile branch of
`merge_station_data` assigns it the real value `4` (the lower endpoint value,
numpy's clamping) — not a missing value.  This refutes the no-extrapolation
part of the claim. -/
theorem c2_counterexample :
    mergeProfileCol [0, 5, 10, 15, 20] [5, 15] [some 4, some 5] =
      [some 4, some 4, some (9/2), some 5, some 5] ∧
    (0 : ℚ) < 5 ∧
    (mergeProfileCol [0, 5, 10, 15, 20] [5, 15] [some 4, some 5]).getD 0 none = some 4 ∧
    (mergeProfileCol [0, 5, 10, 15, 20] [5, 15] [some 4, some 5]).getD 0 none ≠ none := by
  have h : mergeProfileCol [0, 5, 10, 15, 20] [5, 15] [some 4, some 5] =
      [some 4, some 4, some (9/2), some 5, some 5] := by
    norm_num [mergeProfileCol, npInterpPoint, liftNaN2]
  exact ⟨h, by norm_num, by rw [h]; rfl, by rw [h]; simp⟩

/-- C2 (amended): in the profile case of `merge_station_data`, each input's
values are linearly interpolated from its native altitude levels onto the
canonical vertical grid, and every canonical grid point lying outside that
input's native altitude range receives the value of the nearest native
endpoint (numpy's boundary clamping) rather than a missing value: inputs with
altitude axes `[0,10,20] → [1,2,3]` and `[5,15] → [4,5]` on canonical grid
`[0,5,10,15,20]` produce `[1, 1.5, 2, 2.5, 3]` and `[4, 4, 4.5, 5, 5]`; in
general any grid point below an input's lowest native level receives the
first native value. -/
theorem c2_theorem :
    mergeProfileCol [0, 5, 10, 15, 20] [0, 10, 20] [some 1, some 2, some 3] =
      [some 1, some (3/2), some 2, some (5/2), some 3] ∧
    mergeProfileCol [0, 5, 10, 15, 20] [5, 15] [some 4, some 5] =
      [some 4, some 4, some (9/2), some 5, some 5] ∧
    (∀ (x q : ℚ) (qs : List ℚ) (f0 : Option ℚ) (fs : List (Option ℚ)),
      qs.length = fs.length → x < q →
      npInterpPoint x (q :: qs) (f0 :: fs) = f0) := by
  refine ⟨?_, ?_, ?_⟩
  · norm_num [mergeProfileCol, npInterpPoint, liftNaN2]
  · norm_num [mergeProfileCol, npInterpPoint, liftNaN2]
  · intro x q qs f0 fs hlen hx
    cases qs with
    | nil =>
      cases fs with
      | nil => simp [npInterpPoint]
      | cons f1 fs' => simp at hlen
    | cons q1 qs' =>
      cases fs with
      | nil => simp at hlen
      | cons f1 fs' => simp [npInterpPoint, if_pos hx]

/-- C2 witness: `c2_theorem` with its clamping clause applied at grid point
`0` of the second input. -/
theorem c2_witness :
    mergeProfileCol [0, 5, 10, 15, 20] [0, 10, 20] [some 1, some 2, some 3] =
      [some 1, some (3/2), some 2, some (5/2), some 3] ∧
    mergeProfileCol [0, 5, 10, 15, 20] [5, 15] [some 4, some 5] =
      [some 4, some 4, some (9/2), some 5, some 5] ∧
    npInterpPoint 0 (5 :: [15]) (some 4 :: [some 5]) = some 4 :=
  ⟨c2_theorem.1, c2_theorem.2.1,
   c2_theorem.2.2 0 5 [15] (some 4) [some 5] rfl (by norm_num)⟩

/-- C3: evaluation of the mixed flat/profile check of `merge_station_data` at
the failing input.  A group `[flat, profile]` (both containing the target
variable) raises no error — the loop sets `is_3d` only after seeing the
profile input, so the earlier flat input is never re-examined — while the
reverse order `[profile, flat]` raises the intended fatal error.  The claim
(and the code's own error message, "some of the input stations contain
altitude info (suggesting profile data), others not") describe an
order-independent check, so this is a code bug. -/
theorem c3_theorem :
    check3d [{ hasVar := true, is3d := false }, { hasVar := true, is3d := true }] =
      .ok true ∧
    check3d [{ hasVar := true, is3d := true }, { hasVar := true, is3d := false }] =
      .error .mixedProfile := by
  constructor <;> rfl

/-- C4: the flat branch of `merge_station_data` orders its inputs ascending
by the preference attribute when `pref_attr` is supplied, otherwise ascending
by the count of non-missing samples of the target variable; when
`sort_by_largest` is set the order is reversed (descending keys); the ordered
list is a permutation of the inputs; and the merge seeds the running result
with the first input of the resulting order and folds the remaining inputs in
sequence. -/
theorem c4_theorem (merge_other : MergeStat → MergeStat → MergeStat)
    (usePref sort_by_largest : Bool) (stats : List MergeStat)
    (hne : stats ≠ []) :
    (mergeFlatOrder usePref sort_by_largest stats).Perm stats ∧
    ((mergeFlatOrder usePref sort_by_largest stats).map (mergeKey usePref)).Pairwise
      (fun a b => if sort_by_largest then b ≤ a else a ≤ b) ∧
    ∃ merged rest, mergeFlatOrder usePref sort_by_largest stats = merged :: rest ∧
      merge_station_data_flat merge_other usePref sort_by_largest stats =
        some (rest.foldl merge_other merged) := by
  have hperm :
      (List.insertionSort
        (fun a b => mergeKey usePref a ≤ mergeKey usePref b) stats).Perm stats :=
    List.perm_insertionSort _ _
  haveI htot : IsTotal MergeStat (fun a b => mergeKey usePref a ≤ mergeKey usePref b) :=
    ⟨fun a b => le_total _ _⟩
  haveI htrans : IsTrans MergeStat (fun a b => mergeKey usePref a ≤ mergeKey usePref b) :=
    ⟨fun a b c hab hbc => le_trans hab hbc⟩
  have hsorted :
      (List.insertionSort
        (fun a b => mergeKey usePref a ≤ mergeKey usePref b) stats).Pairwise
        (fun a b => mergeKey usePref a ≤ mergeKey usePref b) :=
    List.sorted_insertionSort _ _
  refine ⟨?_, ?_, ?_⟩
  · unfold mergeFlatOrder
    cases sort_by_largest with
    | false => simpa using hperm
    | true => simpa using (List.reverse_perm _).trans hperm
  · cases sort_by_largest with
    | false =>
      have horder : mergeFlatOrder usePref false stats =
          List.insertionSort (fun a b => mergeKey usePref a ≤ mergeKey usePref b) stats := by
        simp [mergeFlatOrder]
      rw [horder]
      simp only [if_neg Bool.false_ne_true]
      exact List.pairwise_map.2 hsorted
    | true =>
      have horder : mergeFlatOrder usePref true stats =
          (List.insertionSort (fun a b => mergeKey usePref a ≤ mergeKey usePref b)
            stats).reverse := by
        simp [mergeFlatOrder]
      rw [horder, List.map_reverse, List.pairwise_reverse]
      simp only [if_pos rfl]
      exact List.pairwise_map.2 hsorted
  · have hlen : (mergeFlatOrder usePref sort_by_largest stats).length = stats.length := by
      unfold mergeFlatOrder
      cases sort_by_largest with
      | false => simp [hperm.length_eq]
      | true => simp [hperm.length_eq]
    cases horder : mergeFlatOrder usePref sort_by_largest stats with
    | nil =>
      exfalso
      rw [horder] at hlen
      exact hne (List.length_eq_zero.1 hlen.symm)
    | cons merged rest =>
      exact ⟨merged, rest, rfl, by simp [merge_station_data_flat, horder]⟩

/-- C4 witness: `c4_theorem` at a concrete two-station group, sorted by
non-missing sample count with `sort_by_largest = true`. -/
theorem c4_witness :
    (mergeFlatOrder false true
        [{ values := [some 1] }, { values := [some 1, some 2] }]).Perm
      [{ values := [some 1] }, { values := [some 1, some 2] }] ∧
    ((mergeFlatOrder false true
        [{ values := [some 1] }, { values := [some 1, some 2] }]).map
      (mergeKey false)).Pairwise (fun a b => if true then b ≤ a else a ≤ b) ∧
    ∃ merged rest,
      mergeFlatOrder false true
          [{ values := [some 1] }, { values := [some 1, some 2] }] =
        merged :: rest ∧
      merge_station_data_flat (fun a _ => a) false true
          [{ values := [some 1] }, { values := [some 1, some 2] }] =
        some (rest.foldl (fun a _ => a) merged) :=
  c4_theorem (fun a _ => a) false true
    [{ values := [some 1] }, { values := [some 1, some 2] }]
    (List.cons_ne_nil _ _)

/-- Step capacity monotonicity: processing one file never shrinks the physical
capacity of the store. -/
theorem readFileStep_rowno_mono (cs : Nat) (s : StoreState) (f : Option Nat) :
    s.rowno ≤ (readFileStep cs s f).rowno := by
  cases f with
  | none => exact le_refl _
  | some t =>
    show s.rowno ≤ (if s.rowno ≤ s.idx + t then add_chunk cs s t else s).rowno
    split
    · exact Nat.le_add_right _ _
    · exact le_refl _

/-- Step invariant: the logical length never exceeds the physical capacity. -/
theorem readFileStep_inv (cs : Nat) (s : StoreState) (f : Option Nat)
    (h : s.idx ≤ s.rowno) :
    (readFileStep cs s f).idx ≤ (readFileStep cs s f).rowno := by
  cases f with
  | none => exact h
  | some t =>
    by_cases hc : s.rowno ≤ s.idx + t
    · show (if s.rowno ≤ s.idx + t then add_chunk cs s t else s).idx + t ≤
        (if s.rowno ≤ s.idx + t then add_chunk cs s t else s).rowno
      rw [if_pos hc]
      show s.idx + t ≤ s.rowno + max cs t
      calc s.idx + t ≤ s.rowno + t := Nat.add_le_add_right h t
        _ ≤ s.rowno + max cs t := Nat.add_le_add_left (Nat.le_max_right cs t) _
    · show (if s.rowno ≤ s.idx + t then add_chunk cs s t else s).idx + t ≤
        (if s.rowno ≤ s.idx + t then add_chunk cs s t else s).rowno
      rw [if_neg hc]
      exact Nat.le_of_lt (Nat.lt_of_not_le hc)

/-- The logical write position after the file loop is the start position plus
the total number of appended rows (successful files only). -/
theorem readRun_idx_sum (cs : Nat) :
    ∀ (files : List (Option Nat)) (s : StoreState),
      (files.foldl (readFileStep cs) s).idx = s.idx + (files.filterMap id).sum := by
  intro files
  induction files with
  | nil => intro s; simp
  | cons f rest ih =>
    intro s
    cases f with
    | none =>
      show (rest.foldl (readFileStep cs) s).idx = s.idx + (List.filterMap id (none :: rest)).sum
      rw [ih s]
      simp
    | some t =>
      have hstep : (readFileStep cs s (some t)).idx = s.idx + t := by
        show (if s.rowno ≤ s.idx + t then add_chunk cs s t else s).idx + t = s.idx + t
        split <;> rfl
      show (rest.foldl (readFileStep cs) (readFileStep cs s (some t))).idx = _
      rw [ih _, hstep]
      simp [Nat.add_assoc]

/-- The file loop never trims. -/
theorem readRun_trims (cs : Nat) :
    ∀ (files : List (Option Nat)) (s : StoreState),
      (files.foldl (readFileStep cs) s).trims = s.trims := by
  intro files
  induction files with
  | nil => intro s; rfl
  | cons f rest ih =>
    intro s
    have hstep : (readFileStep cs s f).trims = s.trims := by
      cases f with
      | none => rfl
      | some t =>
        show (if s.rowno ≤ s.idx + t then add_chunk cs s t else s).trims = s.trims
        split <;> rfl
    show (rest.foldl (readFileStep cs) (readFileStep cs s f)).trims = s.trims
    rw [ih _, hstep]

/-- C5: after `ReadEbas.read` finishes and trims the store, the flat table's
logical length equals exactly the sum over all successfully read files of the
appended sample counts (`num_times * len(contains_vars)` per file), with no
slack rows remaining (physical length = logical length); the trim counter is
exactly 1 (the single `_data = _data[:idx]` of line 810); during the run,
a step only ever extends capacity, and the logical length never exceeds the
physical capacity.  (`UngriddedData.add_chunk` is modelled from the spec; see
`add_chunk`.) -/
theorem c5_theorem (chunksize rowno0 : Nat) (files : List (Option Nat)) :
    (read_store chunksize rowno0 files).idx = (files.filterMap id).sum ∧
    (read_store chunksize rowno0 files).rowno = (files.filterMap id).sum ∧
    (read_store chunksize rowno0 files).trims = 1 ∧
    (∀ (s : StoreState) (f : Option Nat),
      s.rowno ≤ (readFileStep chunksize s f).rowno) ∧
    (∀ fs : List (Option Nat),
      (readRun chunksize rowno0 fs).idx ≤ (readRun chunksize rowno0 fs).rowno) := by
  have hidx : (readRun chunksize rowno0 files).idx = (files.filterMap id).sum := by
    have := readRun_idx_sum chunksize files ⟨0, rowno0, 0⟩
    simpa [readRun] using this
  have htrims : (readRun chunksize rowno0 files).trims = 0 := by
    have := readRun_trims chunksize files ⟨0, rowno0, 0⟩
    simpa [readRun] using this
  refine ⟨?_, ?_, ?_, readFileStep_rowno_mono chunksize, ?_⟩
  · show (readRun chunksize rowno0 files).idx = _
    exact hidx
  · show (readRun chunksize rowno0 files).idx = _
    exact hidx
  · show (readRun chunksize rowno0 files).trims + 1 = 1
    rw [htrims]
  · intro fs
    have main : ∀ (l : List (Option Nat)) (s : StoreState), s.idx ≤ s.rowno →
        (l.foldl (readFileStep chunksize) s).idx ≤
          (l.foldl (readFileStep chunksize) s).rowno := by
      intro l
      induction l with
      | nil => intro s h; exact h
      | cons f rest ih =>
        intro s h
        exact ih (readFileStep chunksize s f) (readFileStep_inv chunksize s f h)
    exact main fs ⟨0, rowno0, 0⟩ (Nat.zero_le _)

/-- `registerVars` over a cons: the head is registered first (kept if already
present, appended otherwise), then the rest. -/
theorem registerVars_cons (reg : List String) (v : String) (vs : List String) :
    registerVars reg (v :: vs) =
      registerVars (if v ∈ reg then reg else reg ++ [v]) vs := rfl

/-- Registration only ever appends to the registry. -/
theorem registerVars_extends (vs : List String) :
    ∀ reg, ∃ t, registerVars reg vs = reg ++ t := by
  induction vs with
  | nil => intro reg; exact ⟨[], (List.append_nil reg).symm⟩
  | cons v vs ih =>
    intro reg
    rw [registerVars_cons]
    by_cases hv : v ∈ reg
    · rw [if_pos hv]; exact ih reg
    · rw [if_neg hv]
      obtain ⟨t, ht⟩ := ih (reg ++ [v])
      exact ⟨[v] ++ t, by rw [ht, List.append_assoc]⟩

/-- The whole file loop only ever appends to the registry. -/
theorem foldl_registerVars_extends (files : List (List String)) :
    ∀ reg, ∃ t, files.foldl registerVars reg = reg ++ t := by
  induction files with
  | nil => intro reg; exact ⟨[], (List.append_nil reg).symm⟩
  | cons vs rest ih =>
    intro reg
    obtain ⟨t1, ht1⟩ := registerVars_extends vs reg
    obtain ⟨t2, ht2⟩ := ih (registerVars reg vs)
    refine ⟨t1 ++ t2, ?_⟩
    show (rest.foldl registerVars (registerVars reg vs)) = reg ++ (t1 ++ t2)
    rw [ht2, ht1, List.append_assoc]

/-- A registered index is preserved by appending to the registry. -/
theorem varIdxOf_append (v : String) :
    ∀ (reg t : List String) (i : Nat),
      varIdxOf reg v = some i → varIdxOf (reg ++ t) v = some i := by
  intro reg
  induction reg with
  | nil => intro t i h; simp [varIdxOf] at h
  | cons r rs ih =>
    intro t i h
    rw [List.cons_append]
    by_cases hr : r = v
    · simp only [varIdxOf, if_pos hr] at h ⊢
      exact h
    · simp only [varIdxOf, if_neg hr] at h ⊢
      cases hj : varIdxOf rs v with
      | none => rw [hj] at h; simp at h
      | some j =>
        rw [hj] at h
        rw [ih t j hj]
        exact h

/-- A fresh name appended to the registry receives the index `reg.length`. -/
theorem varIdxOf_append_self (v : String) :
    ∀ reg : List String, v ∉ reg → varIdxOf (reg ++ [v]) v = some reg.length := by
  intro reg
  induction reg with
  | nil => intro _; simp [varIdxOf]
  | cons r rs ih =>
    intro hv
    have hr : ¬ r = v := fun h => hv (by rw [h]; exact List.mem_cons_self _ _)
    have hrs : v ∉ rs := fun h => hv (List.mem_cons_of_mem _ h)
    rw [List.cons_append]
    simp only [varIdxOf, if_neg hr, ih hrs, Option.map_some]
    rfl

/-- Registration preserves freedom from duplicates. -/
theorem registerVars_nodup (vs : List String) :
    ∀ reg : List String, reg.Nodup → (registerVars reg vs).Nodup := by
  induction vs with
  | nil => intro reg h; exact h
  | cons v vs ih =>
    intro reg h
    rw [registerVars_cons]
    by_cases hv : v ∈ reg
    · rw [if_pos hv]; exact ih reg h
    · rw [if_neg hv]
      refine ih (reg ++ [v]) ?_
      simp [List.nodup_append, h, hv]

/-- C6: within one `ReadEbas.read` session, `var_idx` values are assigned in
first-seen order starting at 0 — a name not yet registered receives the
current registry size as its index (so the first new name gets 0, the next
distinct new name gets 1, and so on) — a registered name keeps its index no
matter which files are processed afterwards, and all assigned indices are
distinct (the registry has no duplicate names). -/
theorem c6_theorem :
    (∀ (pre more : List (List String)) (v : String) (i : Nat),
      varIdxOf (runVarRegistry pre) v = some i →
      varIdxOf (runVarRegistry (pre ++ more)) v = some i) ∧
    (∀ (reg vs : List String) (v : String), v ∉ reg →
      varIdxOf (registerVars reg (v :: vs)) v = some reg.length) ∧
    (∀ files : List (List String), (runVarRegistry files).Nodup) := by
  refine ⟨?_, ?_, ?_⟩
  · intro pre more v i h
    have happ : runVarRegistry (pre ++ more) =
        more.foldl registerVars (runVarRegistry pre) := by
      simp [runVarRegistry, List.foldl_append]
    obtain ⟨t, ht⟩ := foldl_registerVars_extends more (runVarRegistry pre)
    rw [happ, ht]
    exact varIdxOf_append v _ t i h
  · intro reg vs v hv
    rw [registerVars_cons, if_neg hv]
    obtain ⟨t, ht⟩ := registerVars_extends vs (reg ++ [v])
    rw [ht]
    exact varIdxOf_append v (reg ++ [v]) t reg.length (varIdxOf_append_self v reg hv)
  · intro files
    have : ∀ (fs : List (List String)) (reg : List String), reg.Nodup →
        (fs.foldl registerVars reg).Nodup := by
      intro fs
      induction fs with
      | nil => intro reg h; exact h
      | cons vs rest ih =>
        intro reg h
        exact ih (registerVars reg vs) (registerVars_nodup vs reg h)
    exact this files [] List.nodup_nil

/-- C6 witness: `c6_theorem` at concrete registries — "b" receives index 1 in
the session `[["a","b"],["c"]]` and keeps it after a later file `["b","d"]`;
a fresh "b" after registry `["a"]` receives index `1 = ["a"].length`; the
registry of a session has no duplicates. -/
theorem c6_witness :
    varIdxOf (runVarRegistry ([["a", "b"], ["c"]] ++ [["b", "d"]])) "b" = some 1 ∧
    varIdxOf (registerVars ["a"] ("b" :: ["c"])) "b" = some 1 ∧
    (runVarRegistry [["a", "b"], ["c"]]).Nodup :=
  ⟨c6_theorem.1 [["a", "b"], ["c"]] [["b", "d"]] "b" 1 (by decide),
   c6_theorem.2.1 ["a"] ["c"] "b" (by decide),
   c6_theorem.2.2 [["a", "b"], ["c"]]⟩

/-- C7 counterexample: a file whose read raises `VariableDefinitionError` (an
exception type outside the `except (NotInFileError, EbasFileError)` clause of
`ReadEbas.read`) aborts the whole batch: the loop returns the exception
itself, the failing file is not recorded in a failed-files list, and the
following readable file is never processed.  This refutes the claim that any
error raised while reading a file is caught and reading continues. -/
theorem c7_counterexample :
    readBatch [("f1", (Except.error .variableDefinition : Except ReadFileErr Nat)),
               ("f2", Except.ok 1)] = .error .variableDefinition ∧
    ∀ out failed,
      readBatch [("f1", (Except.error .variableDefinition : Except ReadFileErr Nat)),
                 ("f2", Except.ok 1)] ≠ .ok (out, failed) := by
  refine ⟨rfl, fun out failed h => ?_⟩
  rw [show readBatch [("f1", (Except.error .variableDefinition : Except ReadFileErr Nat)),
        ("f2", Except.ok 1)] = .error .variableDefinition from rfl] at h
  exact Except.noConfusion h

/-- Accumulator-generalised loop lemma for C7: when every exception among the
remaining files is of a caught type, the loop succeeds, appending each payload
to the output and each failing file name to the failed-files list, in order. -/
theorem readLoop_ok {α : Type} :
    ∀ (files : List (String × Except ReadFileErr α)) (out : List α)
      (files_failed : List String),
      (∀ p ∈ files, caughtOk p = true) →
      readLoop files out files_failed =
        .ok (out ++ files.filterMap okPayload,
             files_failed ++ files.filterMap failedName) := by
  intro files
  induction files with
  | nil => intro out files_failed _; simp [readLoop]
  | cons p rest ih =>
    intro out files_failed h
    obtain ⟨fname, res⟩ := p
    cases res with
    | ok station_data =>
      show readLoop rest (out ++ [station_data]) files_failed = _
      rw [ih (out ++ [station_data]) files_failed
        (fun q hq => h q (List.mem_cons_of_mem _ hq))]
      simp [okPayload, failedName]
    | error e =>
      have hc : caughtByRead e = true := h (fname, .error e) (List.mem_cons_self _ _)
      show (if caughtByRead e then readLoop rest out (files_failed ++ [fname])
            else .error e) = _
      rw [if_pos hc, ih out (files_failed ++ [fname])
        (fun q hq => h q (List.mem_cons_of_mem _ hq))]
      simp [okPayload, failedName]

/-- C7 (amended): for every input file processed by `ReadEbas.read`, an error
of type `NotInFileError` or `EbasFileError` raised while reading that file is
caught, the file is recorded in the failed-files list, and reading continues
with the remaining files; when every per-file error is of one of these two
caught types, the batch completes with exactly the successful payloads and
exactly the failing files, in order.  (Errors of any other type propagate and
abort the batch, as `c7_counterexample` shows.) -/
theorem c7_theorem {α : Type} (files : List (String × Except ReadFileErr α))
    (h : ∀ p ∈ files, caughtOk p = true) :
    readBatch files =
      .ok (files.filterMap okPayload, files.filterMap failedName) := by
  have := readLoop_ok files [] [] h
  simpa [readBatch] using this

/-- C7 witness: `c7_theorem` on a batch where the two middle files raise the
two caught exception types: both are recorded, both readable files are
processed. -/
theorem c7_witness :
    readBatch [("f1", (Except.ok 1 : Except ReadFileErr Nat)),
               ("f2", Except.error .notInFile),
               ("f3", Except.error .ebasFile),
               ("f4", Except.ok 2)] = .ok ([1, 2], ["f2", "f3"]) := by
  rw [c7_theorem _ (by decide)]
  rfl

/-- Unfolding equation of `npArgmin` on a two-or-more-element list. -/
theorem npArgmin_cons_cons (x y : Nat) (ys : List Nat) :
    npArgmin (x :: y :: ys) =
      if (y :: ys).getD (npArgmin (y :: ys)) 0 < x then npArgmin (y :: ys) + 1
      else 0 := rfl

/-- `np.argmin` returns an index inside the list. -/
theorem npArgmin_lt_length : ∀ (l : List Nat), l ≠ [] → npArgmin l < l.length := by
  intro l
  induction l with
  | nil => intro h; exact absurd rfl h
  | cons x xs ih =>
    intro _
    cases xs with
    | nil => simp [npArgmin]
    | cons y ys =>
      rw [npArgmin_cons_cons]
      by_cases hc : (y :: ys).getD (npArgmin (y :: ys)) 0 < x
      · rw [if_pos hc]
        have hlt := ih (List.cons_ne_nil _ _)
        simp only [List.length_cons] at hlt ⊢
        omega
      · rw [if_neg hc]
        simp

/-- `np.argmin` points at a minimum value. -/
theorem npArgmin_le :
    ∀ (l : List Nat) (j : Nat), j < l.length →
      l.getD (npArgmin l) 0 ≤ l.getD j 0 := by
  intro l
  induction l with
  | nil => intro j hj; simp at hj
  | cons x xs ih =>
    intro j hj
    cases xs with
    | nil =>
      have hj0 : j = 0 := by
        simp only [List.length_cons, List.length_nil] at hj
        omega
      subst hj0
      simp [npArgmin]
    | cons y ys =>
      rw [npArgmin_cons_cons]
      have hjlen : j < (y :: ys).length + 1 := by simpa using hj
      by_cases hc : (y :: ys).getD (npArgmin (y :: ys)) 0 < x
      · rw [if_pos hc, List.getD_cons_succ]
        cases j with
        | zero => simpa using Nat.le_of_lt hc
        | succ j' =>
          rw [List.getD_cons_succ]
          exact ih j' (by omega)
      · have hx : x ≤ (y :: ys).getD (npArgmin (y :: ys)) 0 := Nat.le_of_not_lt hc
        rw [if_neg hc, List.getD_cons_zero]
        cases j with
        | zero => simp
        | succ j' =>
          rw [List.getD_cons_succ]
          exact Nat.le_trans hx (ih j' (by omega))

/-- `np.argmin` points at the FIRST occurrence of the minimum: any index
holding the same value lies at or after it. -/
theorem npArgmin_first :
    ∀ (l : List Nat) (j : Nat), j < l.length →
      l.getD j 0 = l.getD (npArgmin l) 0 → npArgmin l ≤ j := by
  intro l
  induction l with
  | nil => intro j hj; simp at hj
  | cons x xs ih =>
    intro j hj heq
    cases xs with
    | nil => simp [npArgmin]
    | cons y ys =>
      have hjlen : j < (y :: ys).length + 1 := by simpa using hj
      rw [npArgmin_cons_cons] at heq ⊢
      by_cases hc : (y :: ys).getD (npArgmin (y :: ys)) 0 < x
      · rw [if_pos hc] at heq ⊢
        cases j with
        | zero =>
          exfalso
          rw [List.getD_cons_zero, List.getD_cons_succ] at heq
          rw [heq] at hc
          exact Nat.lt_irrefl _ hc
        | succ j' =>
          rw [List.getD_cons_succ, List.getD_cons_succ] at heq
          exact Nat.succ_le_succ (ih j' (by omega) heq)
      · rw [if_neg hc]
        exact Nat.zero_le _

/-- C8: column resolution is deterministic — two runs of
`_find_best_data_column` on identical inputs yield the identical result — and
when the final NaN-count tie-break of lines 441-444 is reached with a
candidate list `result_col` (nonempty, in ascending column order, as produced
by `_get_var_cols` and preserved by both phases), the single chosen column is
a member of `result_col`, achieves the minimal NaN count, and among all
candidates with that same minimal NaN count it is the one with the lowest
column index (`np.argmin` returns the first minimum). -/
theorem c8_theorem (info : EbasVarInfo) (file : NasaAmesFile)
    (result_col : List Nat) (hne : result_col ≠ [])
    (hsorted : result_col.Pairwise (· < ·)) :
    (∀ cols : List Nat,
      find_best_data_column info file cols = find_best_data_column info file cols) ∧
    ∃ c, nanTieBreak file result_col = [c] ∧ c ∈ result_col ∧
      (∀ c' ∈ result_col, nanCount file c ≤ nanCount file c') ∧
      (∀ c' ∈ result_col, nanCount file c' = nanCount file c → c ≤ c') := by
  refine ⟨fun _ => rfl, ?_⟩
  set counts := result_col.map (nanCount file) with hcounts
  have hclen : counts.length = result_col.length := List.length_map _ _
  have hcne : counts ≠ [] := by
    intro h
    exact hne (List.map_eq_nil_iff.1 (hcounts ▸ h))
  have hk : npArgmin counts < result_col.length := by
    have := npArgmin_lt_length counts hcne
    omega
  set k := npArgmin counts with hkdef
  have hgetc : ∀ j, j < result_col.length →
      counts.getD j 0 = nanCount file (result_col.getD j 0) := by
    intro j hj
    rw [hcounts, List.getD_eq_getElem _ _ (by simpa using hj),
      List.getD_eq_getElem _ _ hj, List.getElem_map]
  refine ⟨result_col.getD k 0, rfl, ?_, ?_, ?_⟩
  · rw [List.getD_eq_getElem _ _ hk]
    exact List.getElem_mem _
  · intro c' hc'
    obtain ⟨j, hjlt, hj⟩ := List.mem_iff_getElem.1 hc'
    have h1 := npArgmin_le counts j (by omega)
    rw [hgetc _ hk, hgetc _ hjlt] at h1
    have hj' : result_col.getD j 0 = c' := by
      rw [List.getD_eq_getElem _ _ hjlt, hj]
    rwa [hj'] at h1
  · intro c' hc' hcnt
    obtain ⟨j, hjlt, hj⟩ := List.mem_iff_getElem.1 hc'
    have hj' : result_col.getD j 0 = c' := by
      rw [List.getD_eq_getElem _ _ hjlt, hj]
    have hfirst : k ≤ j := by
      refine npArgmin_first counts j (by omega) ?_
      rw [hgetc _ hjlt, hgetc _ hk, hj', hcnt]
    rcases Nat.eq_or_lt_of_le hfirst with heq | hlt
    · rw [← hj', ← heq]
    · have hrel := (List.pairwise_iff_get.1 hsorted) ⟨k, hk⟩ ⟨j, hjlt⟩ hlt
      simp only [List.get_eq_getElem] at hrel
      rw [List.getD_eq_getElem _ _ hk, ← hj]
      exact Nat.le_of_lt hrel

/-- C8 witness: `c8_theorem` at a concrete file whose two candidate columns
have the same NaN count (one missing sample each): the tie-break picks the
lower column index, 0. -/
theorem c8_witness :
    (∀ cols : List Nat,
      find_best_data_column {} { dataCols := [[none, some 1], [none, some 2]] } cols =
        find_best_data_column {} { dataCols := [[none, some 1], [none, some 2]] } cols) ∧
    ∃ c, nanTieBreak { dataCols := [[none, some 1], [none, some 2]] } [0, 1] = [c] ∧
      c ∈ [0, 1] ∧
      (∀ c' ∈ [0, 1],
        nanCount { dataCols := [[none, some 1], [none, some 2]] } c ≤
          nanCount { dataCols := [[none, some 1], [none, some 2]] } c') ∧
      (∀ c' ∈ [0, 1],
        nanCount { dataCols := [[none, some 1], [none, some 2]] } c' =
          nanCount { dataCols := [[none, some 1], [none, some 2]] } c → c ≤ c') :=
  c8_theorem {} { dataCols := [[none, some 1], [none, some 2]] } [0, 1]
    (List.cons_ne_nil _ _) (by decide)

/-- C9: in `read_file`, a resolved variable whose data column is entirely
missing (NaN count equal to the row count `totnum`) is dropped from the output
record without raising — whenever some other resolved column is not entirely
missing the loop still returns a record, and the dropped variable is absent
from it — and `read_file` raises the whole-file "no usable data"
`EbasFileError` if and only if every resolved column is entirely missing.
(`var_cols` is the Python dict of resolved variables, so its variable names
are distinct.) -/
theorem c9_theorem (file : NasaAmesFile) (var_cols : List (String × Nat))
    (hnodup : (var_cols.map Prod.fst).Nodup) :
    (extractOutcome file var_cols = .error .ebasFileErr ↔
      ∀ p ∈ var_cols, nanCount file p.2 = file.nrows) ∧
    (∀ p ∈ var_cols, nanCount file p.2 ≠ file.nrows →
      ∃ l, extractOutcome file var_cols = .ok l ∧ p.1 ∈ l) ∧
    (∀ p ∈ var_cols, nanCount file p.2 = file.nrows →
      ∀ l, extractOutcome file var_cols = .ok l → p.1 ∉ l) := by
  have hfnone : ∀ p : String × Nat,
      ((if nanCount file p.2 = file.nrows then none else some p.1) = (none : Option String))
        ↔ nanCount file p.2 = file.nrows := by
    intro p
    split
    · simp_all
    · simp_all
  refine ⟨?_, ?_, ?_⟩
  · constructor
    · intro herr p hp
      cases hE : extractVars file var_cols with
      | cons a as =>
        unfold extractOutcome at herr
        rw [hE] at herr
        exact absurd herr (by simp)
      | nil =>
        have hall := List.filterMap_eq_nil_iff.1 hE
        exact (hfnone p).1 (hall p hp)
    · intro hall
      have hE : extractVars file var_cols = [] :=
        List.filterMap_eq_nil_iff.2 (fun p hp => (hfnone p).2 (hall p hp))
      unfold extractOutcome
      rw [hE]
  · intro p hp hcnt
    have hmem : p.1 ∈ extractVars file var_cols :=
      List.mem_filterMap.2 ⟨p, hp, by simp [hcnt]⟩
    cases hE : extractVars file var_cols with
    | nil => rw [hE] at hmem; simp at hmem
    | cons a as =>
      refine ⟨a :: as, ?_, hE ▸ hmem⟩
      unfold extractOutcome
      rw [hE]
  · intro p hp hcnt l hok hin
    have hl : l = extractVars file var_cols := by
      cases hE : extractVars file var_cols with
      | nil =>
        unfold extractOutcome at hok
        rw [hE] at hok
        exact absurd hok (by simp)
      | cons a as =>
        unfold extractOutcome at hok
        rw [hE] at hok
        exact (Except.ok.inj hok).symm
    rw [hl] at hin
    obtain ⟨q, hq, hfq⟩ := List.mem_filterMap.1 hin
    by_cases hqc : nanCount file q.2 = file.nrows
    · rw [if_pos hqc] at hfq
      exact Option.noConfusion hfq
    · rw [if_neg hqc] at hfq
      have hq1 : q.1 = p.1 := Option.some.inj hfq
      have hqp : q = p := List.inj_on_of_nodup_map hnodup hq hp hq1
      rw [hqp] at hqc
      exact hqc hcnt

/-- C9 witness: `c9_theorem` at a two-variable file where column 0 (variable
"a") is entirely NaN and column 1 (variable "b") is not: "a" is dropped
without raising, the record contains exactly "b". -/
theorem c9_witness :
    (extractOutcome { nrows := 2, dataCols := [[none, none], [none, some 1]] }
        [("a", 0), ("b", 1)] = .error .ebasFileErr ↔
      ∀ p ∈ [("a", 0), ("b", 1)],
        nanCount { nrows := 2, dataCols := [[none, none], [none, some 1]] } p.2 = 2) ∧
    (∀ p ∈ [("a", 0), ("b", 1)],
      nanCount { nrows := 2, dataCols := [[none, none], [none, some 1]] } p.2 ≠ 2 →
      ∃ l, extractOutcome { nrows := 2, dataCols := [[none, none], [none, some 1]] }
          [("a", 0), ("b", 1)] = .ok l ∧ p.1 ∈ l) ∧
    (∀ p ∈ [("a", 0), ("b", 1)],
      nanCount { nrows := 2, dataCols := [[none, none], [none, some 1]] } p.2 = 2 →
      ∀ l, extractOutcome { nrows := 2, dataCols := [[none, none], [none, some 1]] }
          [("a", 0), ("b", 1)] = .ok l → p.1 ∉ l) :=
  c9_theorem { nrows := 2, dataCols := [[none, none], [none, some 1]] }
    [("a", 0), ("b", 1)] (by decide)
